import Mathlib

/-!
Shallow embedding of `src/market_research_tool.py` (class `MarketResearchTool`)
together with the add-business button handler of `src/app.py`.

Conventions of the embedding:

* Coordinates, populations, incomes and radii are rationals (`ℚ`); the Python
  floats of the source are modelled exactly.
* The source measures distance with `scipy.spatial.distance.euclidean`, i.e.
  `√((Δlat)² + (Δlon)²)`.  Every use of that value in the source is either a
  comparison against another distance, a comparison against a nonnegative
  radius, or a min-max normalization.  Because `√` is strictly monotone on
  nonnegative reals, comparisons of distances are translated to the equivalent
  comparisons of *squared* distances (`dist2`), and the stored
  `distance_to_business` column is modelled by the squared distance; a
  comparison `d ≥ r` with `r > 0` becomes `dist2 ≥ r²`.
* `NaN` cells of the `avg_income` / `avg_age` columns are modelled by
  `Option ℚ` with `none` for `NaN`; the `+∞` sentinel of the
  `distance_to_business` column is modelled by `none` in an `Option ℚ` field.
* numpy extended arithmetic, where it matters (the unguarded `0/0` of min-max
  normalization, sums and means over `±∞`), is modelled by the four-point
  extension `RR` of `ℚ` with `nan`, `pinf`, `ninf`.
-/

namespace MRT

/-- Extended numeric values: a rational, IEEE `NaN`, `+∞` or `-∞`.  Used for
the results of numpy operations that can leave the rationals (`0/0`,
means over `+∞`). -/
inductive RR where
  | num (q : ℚ)
  | nan
  | pinf
  | ninf
  deriving DecidableEq, Repr

/-- IEEE addition on extended values: `NaN` is absorbing, `+∞ + -∞ = NaN`. -/
def RR.add : RR → RR → RR
  | .nan, _ => .nan
  | .num _, .nan => .nan
  | .pinf, .nan => .nan
  | .ninf, .nan => .nan
  | .num a, .num b => .num (a + b)
  | .num _, .pinf => .pinf
  | .num _, .ninf => .ninf
  | .pinf, .num _ => .pinf
  | .pinf, .pinf => .pinf
  | .pinf, .ninf => .nan
  | .ninf, .num _ => .ninf
  | .ninf, .ninf => .ninf
  | .ninf, .pinf => .nan

/-- IEEE multiplication of an extended value by a rational constant
(`±∞ · 0 = NaN`). -/
def RR.mulQ : RR → ℚ → RR
  | .nan, _ => .nan
  | .num a, w => .num (a * w)
  | .pinf, w => if 0 < w then .pinf else if w < 0 then .ninf else .nan
  | .ninf, w => if 0 < w then .ninf else if w < 0 then .pinf else .nan

/-- Test for the `NaN` value. -/
def RR.isNaN : RR → Bool
  | .nan => true
  | _ => false

/-- numpy/pandas division of rationals: `0/0 = NaN`, `x/0 = ±∞` for `x ≠ 0`,
ordinary rational division otherwise. -/
def npDiv (a b : ℚ) : RR :=
  if b = 0 then (if a = 0 then RR.nan else if 0 < a then RR.pinf else RR.ninf)
  else RR.num (a / b)

/-- One row of `self.sa_data`: an SA1 area with its demographic attributes and
the two derived columns `assigned_business` / `distance_to_business`
(the latter stored as a *squared* distance, `none` for the `np.inf`
sentinel). -/
structure AreaRow where
  sa1 : String
  latitude : ℚ
  longitude : ℚ
  total_population : ℚ
  population_density : ℚ
  avg_income : Option ℚ
  avg_age : Option ℚ
  postcode : String
  suburb : String
  /-- merged percentage columns (`age_…` etc.), as an association list
  column-name ↦ value. -/
  demo : List (String × ℚ)
  assigned_business : Option String
  distance2 : Option ℚ
  deriving DecidableEq, Repr

/-- One entry of `self.businesses`: a business dict with its derived
catchment list of SA1 identifiers. -/
structure Business where
  name : String
  lat : ℚ
  lon : ℚ
  catchment : List String
  deriving DecidableEq, Repr

/-- The mutable state of a `MarketResearchTool` instance.  `hasDensityCol` and
`demoCols` model the pandas column-presence checks
(`'population_density' in candidates.columns`, `age_col in candidates.columns`)
as capability flags fixed at construction. -/
structure Tool where
  sa_data : List AreaRow
  businesses : List Business
  hasDensityCol : Bool
  demoCols : List String
  deriving DecidableEq, Repr

/-- Squared planar Euclidean distance between two `(lat, lon)` pairs; the
source's `distance.euclidean` is the square root of this value. -/
def dist2 (p q : ℚ × ℚ) : ℚ :=
  (p.1 - q.1) ^ 2 + (p.2 - q.2) ^ 2

/-- Comparison `d < m` against the running minimum, whose initial value is the
`np.inf` sentinel (`none`). -/
def ltInf (d : ℚ) : Option ℚ → Bool
  | none => true
  | some m => decide (d < m)

/-- One iteration of the inner `for business in self.businesses` loop of
`_recalculate_catchments`: keep the accumulator unless the new squared
distance is strictly smaller (`if dist < min_dist`). -/
def nearestStep (p : ℚ × ℚ) (acc : Option ℚ × Option String) (b : Business) :
    Option ℚ × Option String :=
  if ltInf (dist2 p (b.lat, b.lon)) acc.1 then
    (some (dist2 p (b.lat, b.lon)), some b.name)
  else acc

/-- The full inner loop: starting from `min_dist = np.inf`,
`nearest_business = None`, scan the businesses in Registry order. -/
def findNearest (p : ℚ × ℚ) (bs : List Business) : Option ℚ × Option String :=
  bs.foldl (nearestStep p) (none, none)

/-- Embedding of `MarketResearchTool._recalculate_catchments`. -/
def recalculateCatchments (t : Tool) : Tool :=
  if t.businesses.isEmpty then
    { t with sa_data := t.sa_data.map fun a =>
        { a with assigned_business := none, distance2 := none } }
  else
    let sa := t.sa_data.map fun a =>
      let r := findNearest (a.latitude, a.longitude) t.businesses
      { a with assigned_business := r.2, distance2 := r.1 }
    let bs := t.businesses.map fun b =>
      { b with catchment :=
          (sa.filter fun x => x.assigned_business == some b.name).map (·.sa1) }
    { t with sa_data := sa, businesses := bs }

/-- Embedding of `MarketResearchTool.add_business` (the source also returns
the new business dict; only the state change matters here). -/
def add_business (t : Tool) (name : String) (lat lon : ℚ) : Tool :=
  recalculateCatchments
    { t with businesses := t.businesses ++ [⟨name, lat, lon, []⟩] }

/-- Embedding of `MarketResearchTool.remove_business`. -/
def remove_business (t : Tool) (name : String) : Tool :=
  recalculateCatchments
    { t with businesses := t.businesses.filter fun b => b.name != name }

/-- Embedding of `MarketResearchTool.__init__`: the derived columns start as
`None` / `np.inf` and the Registry starts empty.  The argument rows stand for
the dataset after the `dropna(subset=['latitude','longitude'])` filter. -/
def initTool (rows : List AreaRow) (hasDensity : Bool) (demoCols : List String) :
    Tool :=
  { sa_data := rows.map fun a =>
      { a with assigned_business := none, distance2 := none },
    businesses := [],
    hasDensityCol := hasDensity,
    demoCols := demoCols }

/-- A single Registry mutation, as exposed to the presentation layer. -/
inductive Mutation where
  | add (name : String) (lat lon : ℚ)
  | remove (name : String)
  deriving DecidableEq, Repr

/-- Apply a single mutation. -/
def applyMutation (t : Tool) : Mutation → Tool
  | .add n la lo => add_business t n la lo
  | .remove n => remove_business t n

/-- Apply a sequence of mutations in order. -/
def applyMutations (t : Tool) (ms : List Mutation) : Tool :=
  ms.foldl applyMutation t

/-- Tool states reachable from a freshly constructed tool by some sequence of
add/remove mutations. -/
def Reachable (t : Tool) : Prop :=
  ∃ rows hasDensity demoCols ms,
    t = applyMutations (initTool rows hasDensity demoCols) ms

/-- The inner scan of `_recalculate_catchments` once the running minimum has
become finite: functional restatement of the `foldl` used by `findNearest`,
convenient for induction. -/
def scanFrom (p : ℚ × ℚ) : ℚ → String → List Business → ℚ × String
  | m, s, [] => (m, s)
  | m, s, b :: bs =>
      if dist2 p (b.lat, b.lon) < m then
        scanFrom p (dist2 p (b.lat, b.lon)) b.name bs
      else
        scanFrom p m s bs

theorem foldl_nearestStep_some (p : ℚ × ℚ) (bs : List Business) :
    ∀ (m : ℚ) (s : String),
      bs.foldl (nearestStep p) (some m, some s) =
        (some (scanFrom p m s bs).1, some (scanFrom p m s bs).2) := by
  induction bs with
  | nil => intro m s; simp [scanFrom]
  | cons b bs ih =>
      intro m s
      by_cases h : dist2 p (b.lat, b.lon) < m
      · simp [List.foldl_cons, nearestStep, ltInf, h, scanFrom, ih]
      · simp [List.foldl_cons, nearestStep, ltInf, h, scanFrom, ih]

theorem findNearest_cons (p : ℚ × ℚ) (b : Business) (bs : List Business) :
    findNearest p (b :: bs) =
      (some (scanFrom p (dist2 p (b.lat, b.lon)) b.name bs).1,
       some (scanFrom p (dist2 p (b.lat, b.lon)) b.name bs).2) := by
  simp [findNearest, List.foldl_cons, nearestStep, ltInf,
    foldl_nearestStep_some]

theorem scanFrom_spec (p : ℚ × ℚ) (bs : List Business) :
    ∀ (m : ℚ) (s : String),
      (scanFrom p m s bs = (m, s) ∧
        ∀ b ∈ bs, m ≤ dist2 p (b.lat, b.lon)) ∨
      (∃ i : Fin bs.length,
        scanFrom p m s bs =
          (dist2 p ((bs.get i).lat, (bs.get i).lon), (bs.get i).name) ∧
        dist2 p ((bs.get i).lat, (bs.get i).lon) < m ∧
        (∀ j : Fin bs.length,
          dist2 p ((bs.get i).lat, (bs.get i).lon) ≤
            dist2 p ((bs.get j).lat, (bs.get j).lon)) ∧
        (∀ j : Fin bs.length, (j : ℕ) < (i : ℕ) →
          dist2 p ((bs.get i).lat, (bs.get i).lon) <
            dist2 p ((bs.get j).lat, (bs.get j).lon))) := by
  induction bs with
  | nil =>
      intro m s
      left
      exact ⟨rfl, by simp⟩
  | cons b bs ih =>
      intro m s
      by_cases h : dist2 p (b.lat, b.lon) < m
      · rcases ih (dist2 p (b.lat, b.lon)) b.name with ⟨heq, hall⟩ |
          ⟨i, heq, hlt, hmin, hfirst⟩
        · right
          refine ⟨⟨0, by simp⟩, ?_, h, ?_, ?_⟩
          · simpa [scanFrom, h] using heq
          · intro j
            induction j using Fin.cases with
            | zero => exact le_refl _
            | succ j' => simpa using hall (bs.get j') (List.get_mem bs _ j'.2)
          · intro j hj
            exact absurd hj (by simp)
        · right
          refine ⟨i.succ, ?_, ?_, ?_, ?_⟩
          · simpa [scanFrom, h] using heq
          · exact lt_trans hlt h
          · intro j
            induction j using Fin.cases with
            | zero => simpa using le_of_lt hlt
            | succ j' => simpa using hmin j'
          · intro j hj
            induction j using Fin.cases with
            | zero => simpa using hlt
            | succ j' =>
                have := hfirst j' (by simpa using hj)
                simpa using this
      · rcases ih m s with ⟨heq, hall⟩ | ⟨i, heq, hlt, hmin, hfirst⟩
        · left
          refine ⟨by simpa [scanFrom, h] using heq, ?_⟩
          intro x hx
          rcases List.mem_cons.mp hx with rfl | hx'
          · exact le_of_not_lt h
          · exact hall x hx'
        · right
          refine ⟨i.succ, ?_, hlt, ?_, ?_⟩
          · simpa [scanFrom, h] using heq
          · intro j
            induction j using Fin.cases with
            | zero =>
                simpa using le_of_lt (lt_of_lt_of_le hlt (not_lt.mp h))
            | succ j' => simpa using hmin j'
          · intro j hj
            induction j using Fin.cases with
            | zero => simpa using lt_of_lt_of_le hlt (not_lt.mp h)
            | succ j' =>
                have := hfirst j' (by simpa using hj)
                simpa using this

/-- Full characterization of the nearest-business scan on a non-empty
Registry: the result names the business at some index `i`, the stored value is
the squared distance to that business, no business is strictly closer, and
every *earlier* business is strictly farther (the strict `<` tie-break). -/
theorem findNearest_spec (p : ℚ × ℚ) (bs : List Business) (hbs : bs ≠ []) :
    ∃ i : Fin bs.length,
      findNearest p bs =
        (some (dist2 p ((bs.get i).lat, (bs.get i).lon)),
         some (bs.get i).name) ∧
      (∀ j : Fin bs.length,
        dist2 p ((bs.get i).lat, (bs.get i).lon) ≤
          dist2 p ((bs.get j).lat, (bs.get j).lon)) ∧
      (∀ j : Fin bs.length, (j : ℕ) < (i : ℕ) →
        dist2 p ((bs.get i).lat, (bs.get i).lon) <
          dist2 p ((bs.get j).lat, (bs.get j).lon)) := by
  cases bs with
  | nil => exact absurd rfl hbs
  | cons b bs =>
      rcases scanFrom_spec p bs (dist2 p (b.lat, b.lon)) b.name with
        ⟨heq, hall⟩ | ⟨i, heq, hlt, hmin, hfirst⟩
      · refine ⟨⟨0, by simp⟩, ?_, ?_, ?_⟩
        · rw [findNearest_cons, heq]; simp
        · intro j
          induction j using Fin.cases with
          | zero => exact le_refl _
          | succ j' => simpa using hall (bs.get j') (List.get_mem bs _ j'.2)
        · intro j hj
          exact absurd hj (by simp)
      · refine ⟨i.succ, ?_, ?_, ?_⟩
        · rw [findNearest_cons, heq]; simp
        · intro j
          induction j using Fin.cases with
          | zero => simpa using le_of_lt hlt
          | succ j' => simpa using hmin j'
        · intro j hj
          induction j using Fin.cases with
          | zero => simpa using hlt
          | succ j' =>
              have := hfirst j' (by simpa using hj)
              simpa using this

theorem foldl_nearestStep_map_catchment (p : ℚ × ℚ)
    (g : Business → List String) (bs : List Business) :
    ∀ acc, (bs.map fun b => { b with catchment := g b }).foldl
        (nearestStep p) acc = bs.foldl (nearestStep p) acc := by
  induction bs with
  | nil => intro acc; rfl
  | cons b bs ih =>
      intro acc
      simp only [List.map_cons, List.foldl_cons, ih]
      rfl

/-- Rebuilding the per-business catchment lists does not change what
`findNearest` computes: the scan reads only `name`, `lat` and `lon`. -/
theorem findNearest_map_catchment (p : ℚ × ℚ) (g : Business → List String)
    (bs : List Business) :
    findNearest p (bs.map fun b => { b with catchment := g b }) =
      findNearest p bs := by
  simp [findNearest, foldl_nearestStep_map_catchment]

theorem recalc_businesses_of_ne (t : Tool) (hb : t.businesses ≠ []) :
    (recalculateCatchments t).businesses =
      t.businesses.map fun b =>
        { b with catchment :=
            (((recalculateCatchments t).sa_data).filter
              fun x => x.assigned_business == some b.name).map (·.sa1) } := by
  rw [recalculateCatchments]
  simp only [List.isEmpty_iff]
  rw [if_neg hb]

theorem recalc_sa_data_of_ne (t : Tool) (hb : t.businesses ≠ []) :
    (recalculateCatchments t).sa_data =
      t.sa_data.map fun a =>
        { a with
            assigned_business :=
              (findNearest (a.latitude, a.longitude) t.businesses).2,
            distance2 :=
              (findNearest (a.latitude, a.longitude) t.businesses).1 } := by
  rw [recalculateCatchments]
  simp only [List.isEmpty_iff]
  rw [if_neg hb]

theorem recalc_sa_data_of_empty (t : Tool) (hb : t.businesses = []) :
    (recalculateCatchments t).sa_data =
      t.sa_data.map fun a =>
        { a with assigned_business := none, distance2 := none } := by
  rw [recalculateCatchments]
  simp only [List.isEmpty_iff]
  rw [if_pos hb]

theorem recalc_businesses_of_empty (t : Tool) (hb : t.businesses = []) :
    (recalculateCatchments t).businesses = [] := by
  rw [recalculateCatchments]
  simp only [List.isEmpty_iff]
  rw [if_pos hb]
  exact hb

/-- Names of the Registry entries survive a recomputation. -/
theorem recalc_business_names (t : Tool) :
    (recalculateCatchments t).businesses.map (·.name) =
      t.businesses.map (·.name) := by
  by_cases hb : t.businesses = []
  · rw [recalc_businesses_of_empty t hb, hb]
  · rw [recalc_businesses_of_ne t hb, List.map_map]
    rfl

/-- Claim C1 — for every area and every non-empty Registry, after
`_recalculate_catchments` the area's assigned business sits at some Registry
index `i`, the stored (squared) distance is the distance to that business, no
business in the Registry is strictly closer, and every business inserted
*earlier* than `i` is strictly farther, so on an exact distance tie the
earliest-inserted business wins (the scan uses strict `<`).  Distances are
compared through their squares, which is equivalent for the planar Euclidean
degree-distance of the source. -/
theorem assigned_is_nearest (t : Tool) (hb : t.businesses ≠ [])
    (a : AreaRow) (ha : a ∈ (recalculateCatchments t).sa_data) :
    ∃ i : Fin t.businesses.length,
      a.assigned_business = some ((t.businesses.get i).name) ∧
      a.distance2 = some (dist2 (a.latitude, a.longitude)
        ((t.businesses.get i).lat, (t.businesses.get i).lon)) ∧
      (∀ j : Fin t.businesses.length,
        dist2 (a.latitude, a.longitude)
            ((t.businesses.get i).lat, (t.businesses.get i).lon) ≤
          dist2 (a.latitude, a.longitude)
            ((t.businesses.get j).lat, (t.businesses.get j).lon)) ∧
      (∀ j : Fin t.businesses.length, (j : ℕ) < (i : ℕ) →
        dist2 (a.latitude, a.longitude)
            ((t.businesses.get i).lat, (t.businesses.get i).lon) <
          dist2 (a.latitude, a.longitude)
            ((t.businesses.get j).lat, (t.businesses.get j).lon)) := by
  rw [recalc_sa_data_of_ne t hb, List.mem_map] at ha
  obtain ⟨a0, _, rfl⟩ := ha
  obtain ⟨i, heq, hmin, hfirst⟩ :=
    findNearest_spec (a0.latitude, a0.longitude) t.businesses hb
  refine ⟨i, ?_, ?_, by simpa using hmin, by simpa using hfirst⟩
  · simp [heq]
  · simp [heq]

/-- Concrete area used by witnesses: an SA1 centroid at the origin. -/
def areaW1 : AreaRow :=
  { sa1 := "A1", latitude := 0, longitude := 0, total_population := 100,
    population_density := 5, avg_income := some 50, avg_age := some 30,
    postcode := "3000", suburb := "CBD", demo := [("age_25_54", 10)],
    assigned_business := none, distance2 := none }

/-- Concrete tool with two businesses at exactly equal distance from
`areaW1` — the tie-break scenario. -/
def toolW1 : Tool :=
  { sa_data := [areaW1],
    businesses := [⟨"B1", 1, 0, []⟩, ⟨"B2", -1, 0, []⟩],
    hasDensityCol := true, demoCols := [] }

/-- Row of `toolW1` after recomputation: the earlier business `B1` wins the
exact tie at squared distance `1`. -/
def areaW1' : AreaRow :=
  { areaW1 with assigned_business := some "B1", distance2 := some 1 }

/-- Witness for claim C1 at the concrete tie-break instance `toolW1`. -/
theorem assigned_is_nearest_witness :
    ∃ i : Fin toolW1.businesses.length,
      areaW1'.assigned_business = some ((toolW1.businesses.get i).name) ∧
      areaW1'.distance2 = some (dist2 (areaW1'.latitude, areaW1'.longitude)
        ((toolW1.businesses.get i).lat, (toolW1.businesses.get i).lon)) ∧
      (∀ j : Fin toolW1.businesses.length,
        dist2 (areaW1'.latitude, areaW1'.longitude)
            ((toolW1.businesses.get i).lat, (toolW1.businesses.get i).lon) ≤
          dist2 (areaW1'.latitude, areaW1'.longitude)
            ((toolW1.businesses.get j).lat, (toolW1.businesses.get j).lon)) ∧
      (∀ j : Fin toolW1.businesses.length, (j : ℕ) < (i : ℕ) →
        dist2 (areaW1'.latitude, areaW1'.longitude)
            ((toolW1.businesses.get i).lat, (toolW1.businesses.get i).lon) <
          dist2 (areaW1'.latitude, areaW1'.longitude)
            ((toolW1.businesses.get j).lat, (toolW1.businesses.get j).lon)) :=
  assigned_is_nearest toolW1 (by simp [toolW1]) areaW1'
    (by simp [toolW1, areaW1, areaW1', recalculateCatchments, findNearest,
      nearestStep, ltInf, dist2])

/-- Invariant tying each area's derived columns to the current Registry:
null/`+∞` exactly when the Registry is empty, otherwise freshly recomputed
from the current Registry. -/
def GoodTool (t : Tool) : Prop :=
  ∀ a ∈ t.sa_data,
    ((a.assigned_business = none ∧ a.distance2 = none) ↔ t.businesses = []) ∧
    (t.businesses ≠ [] →
      a.assigned_business =
        (findNearest (a.latitude, a.longitude) t.businesses).2 ∧
      a.distance2 = (findNearest (a.latitude, a.longitude) t.businesses).1)

theorem goodTool_recalc (t : Tool) : GoodTool (recalculateCatchments t) := by
  by_cases hb : t.businesses = []
  · intro a ha
    rw [recalc_sa_data_of_empty t hb, List.mem_map] at ha
    obtain ⟨a0, -, rfl⟩ := ha
    have hb' := recalc_businesses_of_empty t hb
    exact ⟨by simp [hb'], fun h => absurd hb' h⟩
  · intro a ha
    have hbs := recalc_businesses_of_ne t hb
    rw [recalc_sa_data_of_ne t hb, List.mem_map] at ha
    obtain ⟨a0, -, rfl⟩ := ha
    obtain ⟨i, heq, -, -⟩ :=
      findNearest_spec (a0.latitude, a0.longitude) t.businesses hb
    constructor
    · rw [hbs]
      simp [heq, hb]
    · intro _
      rw [hbs]
      simp [findNearest_map_catchment, heq]

theorem goodTool_init (rows : List AreaRow) (hd : Bool) (dc : List String) :
    GoodTool (initTool rows hd dc) := by
  intro a ha
  rw [initTool, List.mem_map] at ha
  obtain ⟨a0, -, rfl⟩ := ha
  exact ⟨by simp [initTool], fun h => absurd rfl h⟩

theorem goodTool_applyMutations (ms : List Mutation) :
    ∀ t : Tool, GoodTool t → GoodTool (applyMutations t ms) := by
  induction ms with
  | nil => intro t h; exact h
  | cons m ms ih =>
      intro t h
      have h1 : GoodTool (applyMutation t m) := by
        cases m with
        | add n la lo => exact goodTool_recalc _
        | remove n => exact goodTool_recalc _
      exact ih (applyMutation t m) h1

theorem reachable_goodTool (t : Tool) (h : Reachable t) : GoodTool t := by
  obtain ⟨rows, hd, dc, ms, rfl⟩ := h
  exact goodTool_applyMutations ms _ (goodTool_init rows hd dc)

/-- Claim C2 — after any sequence of add/remove mutations, an area's
assignment is null with a `+∞` (here `none`) distance exactly when the
Registry is empty; with a non-empty Registry every area carries a non-null
assignment that was freshly recomputed from the *current* Registry by the
nearest-business scan, never a stale one. -/
theorem total_coverage (t : Tool) (h : Reachable t) :
    ∀ a ∈ t.sa_data,
      ((a.assigned_business = none ∧ a.distance2 = none) ↔
        t.businesses = []) ∧
      (t.businesses ≠ [] →
        a.assigned_business ≠ none ∧
        a.assigned_business =
          (findNearest (a.latitude, a.longitude) t.businesses).2 ∧
        a.distance2 =
          (findNearest (a.latitude, a.longitude) t.businesses).1) := by
  intro a ha
  have hg := reachable_goodTool t h a ha
  refine ⟨hg.1, fun hne => ?_⟩
  obtain ⟨i, heq, -, -⟩ :=
    findNearest_spec (a.latitude, a.longitude) t.businesses hne
  refine ⟨?_, hg.2 hne⟩
  rw [(hg.2 hne).1, heq]
  simp

/-- Concrete mutation sequence for the C2 witness: add, remove, add. -/
def toolW2 : Tool :=
  applyMutations (initTool [areaW1] true [])
    [Mutation.add "F1" 1 1, Mutation.remove "F1", Mutation.add "F2" 2 2]

/-- The single area row of `toolW2` after the mutation sequence: assigned to
`F2` at squared distance `8`. -/
def rowW2 : AreaRow :=
  { areaW1 with assigned_business := some "F2", distance2 := some 8 }

/-- Witness for claim C2 at the concrete mutation sequence of `toolW2`. -/
theorem total_coverage_witness :
    rowW2 ∈ toolW2.sa_data ∧
    (((rowW2.assigned_business = none ∧ rowW2.distance2 = none) ↔
        toolW2.businesses = []) ∧
      (toolW2.businesses ≠ [] →
        rowW2.assigned_business ≠ none ∧
        rowW2.assigned_business =
          (findNearest (rowW2.latitude, rowW2.longitude) toolW2.businesses).2 ∧
        rowW2.distance2 =
          (findNearest (rowW2.latitude, rowW2.longitude)
            toolW2.businesses).1)) := by
  have hm : rowW2 ∈ toolW2.sa_data := by
    simp [toolW2, rowW2, applyMutations, applyMutation, add_business,
      remove_business, initTool, recalculateCatchments, findNearest,
      nearestStep, ltInf, dist2, areaW1]
    norm_num
  exact ⟨hm, total_coverage toolW2 ⟨[areaW1], true, [],
    [Mutation.add "F1" 1 1, Mutation.remove "F1", Mutation.add "F2" 2 2],
    rfl⟩ rowW2 hm⟩

/-- The demographic filters accepted by `get_catchment_summary`: each field is
a dict key that may be absent (`none`).  In the source an age filter with both
bounds present is explicitly a no-op (`pass`: the aggregated dataset has no
per-individual age columns). -/
structure Filters where
  min_age : Option ℚ
  max_age : Option ℚ
  min_income : Option ℚ
  max_income : Option ℚ
  deriving DecidableEq, Repr

/-- Filters dict with no keys. -/
def noFilters : Filters := ⟨none, none, none, none⟩

/-- The pandas comparison `avg_income >= v` on a cell that may be `NaN`:
`NaN >= v` is `False`, so `NaN` rows are dropped by the filter. -/
def incomeGE (v : ℚ) (a : AreaRow) : Bool :=
  match a.avg_income with
  | none => false
  | some x => decide (v ≤ x)

/-- The pandas comparison `avg_income <= v` on a cell that may be `NaN`. -/
def incomeLE (v : ℚ) (a : AreaRow) : Bool :=
  match a.avg_income with
  | none => false
  | some x => decide (x ≤ v)

/-- Embedding of the filter block of `get_catchment_summary` (lines 121-132):
the age filter is a documented no-op, the income bounds are applied in order.
An all-`none` `Filters` behaves exactly like the absent/empty dict of the
source (each branch is skipped). -/
def applyFilters (f : Filters) (rows : List AreaRow) : List AreaRow :=
  let rows1 := match f.min_income with
    | none => rows
    | some v => rows.filter (incomeGE v)
  match f.max_income with
  | none => rows1
  | some v => rows1.filter (incomeLE v)

/-- Embedding of the selection step of `get_catchment_summary`: the Python
truthiness test `if business_name:` treats both `None` and the empty string
as "summarize all areas". -/
def selectRows (t : Tool) (business_name : Option String) : List AreaRow :=
  match business_name with
  | some n =>
      if n ≠ "" then t.sa_data.filter fun a => a.assigned_business == some n
      else t.sa_data
  | none => t.sa_data

/-- pandas `Series.mean()` over cells that may be `NaN` (`none`): `NaN` cells
are skipped; the mean of zero non-`NaN` cells is `NaN`. -/
def colMean (xs : List (Option ℚ)) : Option ℚ :=
  let v := xs.filterMap id
  if v = [] then none else some (v.sum / v.length)

/-- pandas `Series.mean()` over the distance column, whose cells are
nonnegative but may be the `+∞` sentinel (`none`): the mean of zero rows is
`NaN`, a mean touching `+∞` is `+∞`. -/
def distMean (xs : List (Option ℚ)) : RR :=
  if xs = [] then RR.nan
  else if xs.any (·.isNone) then RR.pinf
  else RR.num ((xs.filterMap id).sum / xs.length)

/-- pandas `Series.max()` over the distance column: the max of zero rows is
`NaN`, a max touching `+∞` is `+∞`. -/
def distMax (xs : List (Option ℚ)) : RR :=
  if xs = [] then RR.nan
  else if xs.any (·.isNone) then RR.pinf
  else RR.num (((xs.filterMap id).foldr max 0))

/-- The summary record returned by `get_catchment_summary`. -/
structure Summary where
  total_population : ℚ
  num_areas : Nat
  avg_income : Option ℚ
  avg_age : Option ℚ
  avg_distance : RR
  max_distance : RR
  deriving DecidableEq, Repr

/-- Embedding of `MarketResearchTool.get_catchment_summary`. -/
def get_catchment_summary (t : Tool) (business_name : Option String)
    (f : Filters) : Summary :=
  let rows := applyFilters f (selectRows t business_name)
  { total_population := (rows.map (·.total_population)).sum,
    num_areas := rows.length,
    avg_income := colMean (rows.map (·.avg_income)),
    avg_age := colMean (rows.map (·.avg_age)),
    avg_distance := distMean (rows.map (·.distance2)),
    max_distance := distMax (rows.map (·.distance2)) }

/-- The summary of a zero-row subset: zero population and count, undefined
(`NaN`/`None`) means and max. -/
def emptySummary : Summary :=
  { total_population := 0, num_areas := 0, avg_income := none,
    avg_age := none, avg_distance := RR.nan, max_distance := RR.nan }

theorem summary_subset_nil (t : Tool) (name : Option String)
    (f : Filters) (h : applyFilters f (selectRows t name) = []) :
    get_catchment_summary t name f = emptySummary := by
  rw [get_catchment_summary, h]
  rfl

/-- Claim C8 — when the selected-and-filtered area subset is empty, the three
mean fields (and the max) are the explicit undefined marker, never zero, while
total population sums to `0` and the area count is `0`. -/
theorem summary_of_empty_subset (t : Tool) (name : Option String)
    (f : Filters) (h : applyFilters f (selectRows t name) = []) :
    get_catchment_summary t name f = emptySummary :=
  summary_subset_nil t name f h

/-- Witness for claim C8: a named selection that matches nothing. -/
theorem summary_of_empty_subset_witness :
    get_catchment_summary toolW1 (some "Ghost") noFilters = emptySummary :=
  summary_of_empty_subset toolW1 (some "Ghost") noFilters (by
    simp [applyFilters, selectRows, toolW1, areaW1, noFilters])

/-- The name produced by the nearest-business scan belongs to the Registry. -/
theorem findNearest_snd_name_mem (p : ℚ × ℚ) (bs : List Business) (n : String)
    (h : (findNearest p bs).2 = some n) : n ∈ bs.map (·.name) := by
  by_cases hbs : bs = []
  · subst hbs; exact absurd h (by simp [findNearest])
  · obtain ⟨i, heq, -, -⟩ := findNearest_spec p bs hbs
    rw [heq] at h
    simp only [Option.some.injEq] at h
    subst h
    exact List.mem_map.mpr ⟨bs.get i, List.get_mem bs _ i.2, rfl⟩

theorem applyFilters_nil (f : Filters) : applyFilters f [] = [] := by
  rw [applyFilters]
  cases f.min_income <;> cases f.max_income <;> simp

/-- Amended claim C9 — for every *non-empty* facility name that matches no
facility in the Registry of a reachable tool state, `get_catchment_summary`
is not an error: it returns the zero-row summary (population 0, count 0,
undefined means), exactly as for an empty catchment.  (The empty-string name
is excluded: Python's `if business_name:` treats it as "no name given" and
summarizes all areas instead.) -/
theorem unknown_name_zero_summary (t : Tool) (n : String) (f : Filters)
    (hre : Reachable t) (hn : n ≠ "")
    (hmem : n ∉ t.businesses.map (·.name)) :
    get_catchment_summary t (some n) f = emptySummary := by
  have hg := reachable_goodTool t hre
  have hsel : selectRows t (some n) = [] := by
    rw [selectRows, if_pos hn]
    rw [List.filter_eq_nil_iff]
    intro a ha
    by_cases hb : t.businesses = []
    · have hnone := ((hg a ha).1).mpr hb
      simp [hnone.1]
    · have h2 := (hg a ha).2 hb
      cases hass : a.assigned_business with
      | none => simp
      | some m =>
          have hm : m ∈ t.businesses.map (·.name) :=
            findNearest_snd_name_mem _ _ _ (by rw [← h2.1, hass])
          simp only [beq_iff_eq, Option.some.injEq]
          intro hc
          exact hmem (hc ▸ hm)
  exact summary_subset_nil t (some n) f (by rw [hsel, applyFilters_nil])

/-- Reachable one-area, one-business tool used by the C9 theorems. -/
def toolW9 : Tool :=
  applyMutations (initTool [areaW1] true []) [Mutation.add "A" 1 1]

/-- Witness for the amended claim C9 at a concrete reachable state. -/
theorem unknown_name_zero_summary_witness :
    get_catchment_summary toolW9 (some "B") noFilters = emptySummary :=
  unknown_name_zero_summary toolW9 "B" noFilters
    ⟨[areaW1], true, [], [Mutation.add "A" 1 1], rfl⟩
    (by simp)
    (by
      simp [toolW9, applyMutations, applyMutation, add_business, initTool,
        recalculateCatchments, findNearest, nearestStep, ltInf, dist2, areaW1])

/-- Counterexample to claim C9 as stated: the empty string is a facility name
that matches no facility in the Registry of the reachable state `toolW9`, yet
`get_catchment_summary` on it summarizes *all* areas (Python's
`if business_name:` is false for `""`), returning one area, not a zero-row
summary. -/
theorem empty_name_summarizes_all :
    "" ∉ toolW9.businesses.map (·.name) ∧
    (get_catchment_summary toolW9 (some "") noFilters).num_areas = 1 := by
  constructor
  · simp [toolW9, applyMutations, applyMutation, add_business, initTool,
      recalculateCatchments, findNearest, nearestStep, ltInf, dist2, areaW1]
  · simp [toolW9, applyMutations, applyMutation, add_business, initTool,
      recalculateCatchments, findNearest, nearestStep, ltInf, dist2, areaW1,
      get_catchment_summary, selectRows, applyFilters, noFilters]

/-- Claim C10 — whenever a `min_income` or `max_income` filter is supplied,
every area with an undefined (`NaN`) average income is excluded from the
filtered subset; with no filters supplied every row (including `NaN`-income
rows) is kept. -/
theorem income_filter_excludes_nan (f : Filters) (rows : List AreaRow)
    (h : f.min_income.isSome ∨ f.max_income.isSome) :
    (∀ a ∈ applyFilters f rows, a.avg_income ≠ none) ∧
    applyFilters noFilters rows = rows := by
  have hGE : ∀ (v : ℚ) (a : AreaRow), incomeGE v a = true →
      a.avg_income ≠ none := by
    intro v a hva
    cases hai : a.avg_income with
    | none => rw [incomeGE, hai] at hva; exact absurd hva (by simp)
    | some x => simp
  have hLE : ∀ (v : ℚ) (a : AreaRow), incomeLE v a = true →
      a.avg_income ≠ none := by
    intro v a hva
    cases hai : a.avg_income with
    | none => rw [incomeLE, hai] at hva; exact absurd hva (by simp)
    | some x => simp
  refine ⟨?_, rfl⟩
  intro a ha
  rw [applyFilters] at ha
  rcases h with hmin | hmax
  · obtain ⟨v, hv⟩ := Option.isSome_iff_exists.mp hmin
    rw [hv] at ha
    cases hmx : f.max_income with
    | none =>
        rw [hmx] at ha
        simp only [List.mem_filter] at ha
        exact hGE v a ha.2
    | some w =>
        rw [hmx] at ha
        simp only [List.mem_filter] at ha
        exact hLE w a ha.2
  · obtain ⟨w, hw⟩ := Option.isSome_iff_exists.mp hmax
    rw [hw] at ha
    cases hmn : f.min_income with
    | none =>
        rw [hmn] at ha
        simp only [List.mem_filter] at ha
        exact hLE w a ha.2
    | some v =>
        rw [hmn] at ha
        simp only [List.mem_filter] at ha
        exact hLE w a ha.2

/-- Area row with an undefined (`NaN`) average income. -/
def areaNaNIncome : AreaRow :=
  { areaW1 with sa1 := "A2", avg_income := none }

/-- Witness for claim C10: with `min_income = 40`, the `NaN`-income row is
excluded; with no filters it is kept. -/
theorem income_filter_excludes_nan_witness :
    (∀ a ∈ applyFilters ⟨none, none, some 40, none⟩ [areaNaNIncome, areaW1],
      a.avg_income ≠ none) ∧
    applyFilters noFilters [areaNaNIncome, areaW1] =
      [areaNaNIncome, areaW1] :=
  income_filter_excludes_nan ⟨none, none, some 40, none⟩
    [areaNaNIncome, areaW1] (Or.inl (by simp))

/-- pandas `Series.min()` over a candidate column (the candidate set is
checked non-empty before normalization; the `[]` default is never reached
there). -/
def listMin : List ℚ → ℚ
  | [] => 0
  | x :: xs => xs.foldl min x

/-- pandas `Series.max()` over a candidate column. -/
def listMax : List ℚ → ℚ
  | [] => 0
  | x :: xs => xs.foldl max x

/-- The min-max normalization expression of `find_optimal_location`
(`(col - col.min()) / (col.max() - col.min())`), with numpy division: on a
degenerate column (`max == min`) every numerator is `0` and the denominator
is `0`, giving `NaN`. -/
def minmaxNorm (vals : List ℚ) (v : ℚ) : RR :=
  npDiv (v - listMin vals) (listMax vals - listMin vals)

/-- The value of the min-max normalization in the non-degenerate case, as a
rational. -/
def qnorm (vals : List ℚ) (v : ℚ) : ℚ :=
  (v - listMin vals) / (listMax vals - listMin vals)

/-- Cell of a merged percentage column (`candidates[age_col]`). -/
def demoVal (a : AreaRow) (c : String) : ℚ :=
  (a.demo.lookup c).getD 0

/-- Cell of the `distance_to_business` column as a rational.  The `+∞`
sentinel (`none`) occurs only when the Registry is empty, and the distance
signal is only read under an `if self.businesses:` guard, so the `0` default
is never reached there. -/
def dval (a : AreaRow) : ℚ :=
  a.distance2.getD 0

/-- Whether the target-demographic signal is enabled:
`target_demographics` supplied with an `age_group` column that is present. -/
def targetEnabled (t : Tool) (target : Option String) : Bool :=
  match target with
  | some c => c ∈ t.demoCols
  | none => false

/-- Embedding of the exclusion-filter block of `find_optimal_location`
(lines 163-171): if businesses exist and the radius is positive, repeatedly
keep only candidates with `distance >= min_distance_from_existing` from each
business.  The comparison is taken on squares: for `r > 0`,
`√d2 ≥ r ↔ d2 ≥ r·r`. -/
def filterCandidates (areas : List AreaRow) (bs : List Business) (r : ℚ) :
    List AreaRow :=
  if bs ≠ [] ∧ 0 < r then
    bs.foldl (fun cs b => cs.filter fun a =>
      decide (r * r ≤ dist2 (a.latitude, a.longitude) (b.lat, b.lon))) areas
  else areas

/-- Embedding of the scoring block of `find_optimal_location` (lines
181-206): `score` starts at `0.0` and each enabled signal adds its normalized
column times its weight, in source order. -/
def candidateScore (cands : List AreaRow) (hasDensity tgt hasBiz : Bool)
    (tcol : String) (a : AreaRow) : RR :=
  let s : RR := RR.num 0
  let s := if hasDensity then
      s.add ((minmaxNorm (cands.map (·.population_density))
        a.population_density).mulQ 0.4)
    else s
  let s := if tgt then
      s.add ((minmaxNorm (cands.map fun x => demoVal x tcol)
        (demoVal a tcol)).mulQ 0.4)
    else s
  let s := if hasBiz then
      s.add ((minmaxNorm (cands.map dval) (dval a)).mulQ 0.2)
    else s
  s

/-- One suggested location of `find_optimal_location`. -/
structure CandidateResult where
  sa1 : String
  latitude : ℚ
  longitude : ℚ
  postcode : String
  suburb : String
  score : RR
  population : ℚ
  population_density : ℚ
  deriving DecidableEq, Repr

/-- Comparison used by the descending selection sort (only non-`NaN` scores
are ever compared; `NaN` rows are dropped first, as pandas `nlargest`
does). -/
def rrGtB : RR → RR → Bool
  | RR.num a, RR.num b => decide (b < a)
  | RR.pinf, RR.pinf => false
  | RR.pinf, _ => true
  | _, RR.pinf => false
  | RR.ninf, _ => false
  | _, RR.ninf => true
  | RR.nan, _ => false
  | _, RR.nan => false

/-- Stable insertion for the descending sort: an element moves ahead only of
strictly smaller scores, so equal scores keep candidate order. -/
def insertByScore (x : AreaRow × RR) :
    List (AreaRow × RR) → List (AreaRow × RR)
  | [] => [x]
  | y :: ys => if rrGtB x.2 y.2 then x :: y :: ys else y :: insertByScore x ys

/-- Descending stable sort by score. -/
def sortByScoreDesc : List (AreaRow × RR) → List (AreaRow × RR)
  | [] => []
  | x :: xs => insertByScore x (sortByScoreDesc xs)

/-- Embedding of `MarketResearchTool.find_optimal_location`: filter
candidates, return `[]` if none remain, otherwise score them and return the
`num_locations` rows with the highest scores (pandas `nlargest`: descending,
ties in candidate order, `NaN` scores never selected). -/
def find_optimal_location (t : Tool) (num_locations : Nat)
    (target : Option String) (min_distance_from_existing : ℚ) :
    List CandidateResult :=
  let candidates :=
    filterCandidates t.sa_data t.businesses min_distance_from_existing
  if candidates.isEmpty then []
  else
    let scored := candidates.map fun a =>
      (a, candidateScore candidates t.hasDensityCol
        (targetEnabled t target) (!t.businesses.isEmpty) (target.getD "") a)
    let top :=
      (sortByScoreDesc (scored.filter fun p => !p.2.isNaN)).take num_locations
    top.map fun p =>
      { sa1 := p.1.sa1, latitude := p.1.latitude, longitude := p.1.longitude,
        postcode := p.1.postcode, suburb := p.1.suburb, score := p.2,
        population := p.1.total_population,
        population_density := p.1.population_density }

theorem foldl_min_le_acc (xs : List ℚ) : ∀ acc : ℚ, xs.foldl min acc ≤ acc := by
  induction xs with
  | nil => intro acc; simp
  | cons x xs ih =>
      intro acc
      calc (x :: xs).foldl min acc = xs.foldl min (min acc x) := by
            rw [List.foldl_cons]
        _ ≤ min acc x := ih (min acc x)
        _ ≤ acc := min_le_left _ _

theorem foldl_min_le_mem (xs : List ℚ) :
    ∀ (acc v : ℚ), v ∈ xs → xs.foldl min acc ≤ v := by
  induction xs with
  | nil => intro acc v hv; exact absurd hv (by simp)
  | cons x xs ih =>
      intro acc v hv
      rcases List.mem_cons.mp hv with rfl | hv'
      · calc (v :: xs).foldl min acc = xs.foldl min (min acc v) := by
              rw [List.foldl_cons]
          _ ≤ min acc v := foldl_min_le_acc xs _
          _ ≤ v := min_le_right _ _
      · rw [List.foldl_cons]
        exact ih (min acc x) v hv'

theorem acc_le_foldl_max (xs : List ℚ) : ∀ acc : ℚ, acc ≤ xs.foldl max acc := by
  induction xs with
  | nil => intro acc; simp
  | cons x xs ih =>
      intro acc
      calc acc ≤ max acc x := le_max_left _ _
        _ ≤ xs.foldl max (max acc x) := ih (max acc x)
        _ = (x :: xs).foldl max acc := by rw [List.foldl_cons]

theorem mem_le_foldl_max (xs : List ℚ) :
    ∀ (acc v : ℚ), v ∈ xs → v ≤ xs.foldl max acc := by
  induction xs with
  | nil => intro acc v hv; exact absurd hv (by simp)
  | cons x xs ih =>
      intro acc v hv
      rcases List.mem_cons.mp hv with rfl | hv'
      · calc v ≤ max acc v := le_max_right _ _
          _ ≤ xs.foldl max (max acc v) := acc_le_foldl_max xs _
          _ = (v :: xs).foldl max acc := by rw [List.foldl_cons]
      · rw [List.foldl_cons]
        exact ih (max acc x) v hv'

theorem listMin_le {vals : List ℚ} {v : ℚ} (h : v ∈ vals) : listMin vals ≤ v := by
  cases vals with
  | nil => exact absurd h (by simp)
  | cons x xs =>
      rw [listMin]
      rcases List.mem_cons.mp h with rfl | h'
      · exact foldl_min_le_acc xs v
      · exact foldl_min_le_mem xs x v h'

theorem le_listMax {vals : List ℚ} {v : ℚ} (h : v ∈ vals) : v ≤ listMax vals := by
  cases vals with
  | nil => exact absurd h (by simp)
  | cons x xs =>
      rw [listMax]
      rcases List.mem_cons.mp h with rfl | h'
      · exact acc_le_foldl_max xs v
      · exact mem_le_foldl_max xs x v h'

/-- Amended claim C4 — for every signal value `v` of a candidate in the
filtered set: when the signal's max differs from its min, the min-max
normalized value is a rational in `[0, 1]`; when the max *equals* the min the
normalization is the unguarded division `0/0` and yields `NaN` for every
candidate (not `0` — the source has no division-by-zero guard). -/
theorem normalized_signal_bounds (vals : List ℚ) (v : ℚ) (hv : v ∈ vals) :
    (listMax vals = listMin vals → minmaxNorm vals v = RR.nan) ∧
    (listMax vals ≠ listMin vals →
      ∃ q : ℚ, minmaxNorm vals v = RR.num q ∧ 0 ≤ q ∧ q ≤ 1) := by
  have h1 : listMin vals ≤ v := listMin_le hv
  have h2 : v ≤ listMax vals := le_listMax hv
  constructor
  · intro heq
    have hv0 : v = listMin vals := le_antisymm (le_trans h2 (le_of_eq heq)) h1
    rw [minmaxNorm, npDiv, if_pos (by rw [heq]; ring)]
    rw [if_pos (by rw [hv0]; ring)]
  · intro hne
    have hden : 0 < listMax vals - listMin vals :=
      sub_pos.mpr (lt_of_le_of_ne (le_trans h1 h2) (Ne.symm hne))
    refine ⟨qnorm vals v, ?_, ?_, ?_⟩
    · rw [minmaxNorm, npDiv, if_neg (by linarith), qnorm]
    · exact div_nonneg (by linarith) (le_of_lt hden)
    · rw [qnorm, div_le_one hden]; linarith

/-- Witness for the amended claim C4 on the column `[0, 2]` at value `2`. -/
theorem normalized_signal_bounds_witness :
    (listMax [0, 2] = listMin [0, 2] → minmaxNorm [0, 2] 2 = RR.nan) ∧
    (listMax [0, 2] ≠ listMin [0, 2] →
      ∃ q : ℚ, minmaxNorm [0, 2] 2 = RR.num q ∧ 0 ≤ q ∧ q ≤ 1) :=
  normalized_signal_bounds [0, 2] 2 (by simp)

/-- Degenerate candidate set for the C4 counterexample: two areas with equal
population density. -/
def toolW4 : Tool :=
  { sa_data := [areaW1, { areaW1 with sa1 := "A2", latitude := 1 }],
    businesses := [], hasDensityCol := true, demoCols := [] }

/-- Counterexample to claim C4 as stated: in `find_optimal_location` on
`toolW4` the only enabled signal (population density) has `max = min`, and
the score the scoring block computes for the first candidate — exactly the
signal's normalized contribution — is `NaN`, not `0`. -/
theorem degenerate_normalization_nan :
    candidateScore (filterCandidates toolW4.sa_data toolW4.businesses 0)
      toolW4.hasDensityCol (targetEnabled toolW4 none)
      (!toolW4.businesses.isEmpty) ((none : Option String).getD "") areaW1 =
      RR.nan ∧
    RR.nan ≠ RR.num 0 := by
  constructor
  · simp [candidateScore, filterCandidates, toolW4, areaW1, targetEnabled,
      minmaxNorm, npDiv, listMin, listMax, RR.add, RR.mulQ]
  · simp

theorem mem_foldl_filter {α β : Type} (f : β → α → Bool) (bs : List β) :
    ∀ (l : List α) (a : α),
      a ∈ bs.foldl (fun cs b => cs.filter (f b)) l ↔
        a ∈ l ∧ ∀ b ∈ bs, f b a = true := by
  induction bs with
  | nil => intro l a; simp
  | cons b bs ih =>
      intro l a
      rw [List.foldl_cons, ih, List.mem_filter]
      constructor
      · rintro ⟨⟨hl, hfb⟩, hall⟩
        refine ⟨hl, fun x hx => ?_⟩
        rcases List.mem_cons.mp hx with rfl | hx'
        · exact hfb
        · exact hall x hx'
      · rintro ⟨hl, hall⟩
        exact ⟨⟨hl, hall b (List.mem_cons_self b bs)⟩,
          fun x hx => hall x (List.mem_cons_of_mem b hx)⟩

theorem mem_filterCandidates (areas : List AreaRow) (bs : List Business)
    (r : ℚ) (a : AreaRow) :
    a ∈ filterCandidates areas bs r ↔
      a ∈ areas ∧ ((bs ≠ [] ∧ 0 < r) → ∀ b ∈ bs,
        r * r ≤ dist2 (a.latitude, a.longitude) (b.lat, b.lon)) := by
  rw [filterCandidates]
  by_cases h : bs ≠ [] ∧ 0 < r
  · rw [if_pos h, mem_foldl_filter]
    simp [h]
  · rw [if_neg h]
    simp [h]

/-- Claim C5 — with at least one business and a positive exclusion radius,
the exclusion filter of `find_optimal_location` keeps exactly the areas whose
(squared) distance to *every* business is at least the (squared) radius —
equivalently, it removes exactly the areas strictly within the radius of some
business, keeping areas exactly at the radius — and an empty filtered
candidate set makes `find_optimal_location` return `[]`, not an error. -/
theorem exclusion_filter_correct (t : Tool) (k : Nat) (target : Option String)
    (r : ℚ) (hb : t.businesses ≠ []) (hr : 0 < r) :
    (∀ a, a ∈ filterCandidates t.sa_data t.businesses r ↔
      a ∈ t.sa_data ∧ ∀ b ∈ t.businesses,
        r * r ≤ dist2 (a.latitude, a.longitude) (b.lat, b.lon)) ∧
    (filterCandidates t.sa_data t.businesses r = [] →
      find_optimal_location t k target r = []) := by
  constructor
  · intro a
    rw [mem_filterCandidates]
    simp [hb, hr]
  · intro h
    simp [find_optimal_location, h]

/-- Candidate exactly at the exclusion radius (squared distance
`1/400 = (1/20)²`). -/
def areaW5a : AreaRow := { areaW1 with sa1 := "K", latitude := 1/20 }

/-- Candidate strictly inside the exclusion radius
(`0.049 < 0.05`). -/
def areaW5b : AreaRow := { areaW1 with sa1 := "X", latitude := 49/1000 }

/-- Tool for the boundary scenario of claims C5 and C7. -/
def toolW5 : Tool :=
  { sa_data := [areaW5a, areaW5b], businesses := [⟨"F", 0, 0, []⟩],
    hasDensityCol := true, demoCols := [] }

/-- Witness for claim C5 at radius `1/20 = 0.05` on `toolW5`. -/
theorem exclusion_filter_correct_witness :
    (∀ a, a ∈ filterCandidates toolW5.sa_data toolW5.businesses (1/20) ↔
      a ∈ toolW5.sa_data ∧ ∀ b ∈ toolW5.businesses,
        (1/20 : ℚ) * (1/20) ≤
          dist2 (a.latitude, a.longitude) (b.lat, b.lon)) ∧
    (filterCandidates toolW5.sa_data toolW5.businesses (1/20) = [] →
      find_optimal_location toolW5 1 none (1/20) = []) :=
  exclusion_filter_correct toolW5 1 none (1/20) (by simp [toolW5])
    (by norm_num)

/-- Claim C7 — for a fixed area set and Registry, the filtered candidate set
is antitone in the exclusion radius: the candidates surviving the larger
radius `r2` all survive the smaller radius `r1`. -/
theorem exclusion_monotone (areas : List AreaRow) (bs : List Business)
    (r1 r2 : ℚ) (h : r1 < r2) :
    ∀ a ∈ filterCandidates areas bs r2, a ∈ filterCandidates areas bs r1 := by
  intro a ha
  rw [mem_filterCandidates] at ha ⊢
  refine ⟨ha.1, fun hg b hb => ?_⟩
  have hg2 : bs ≠ [] ∧ 0 < r2 := ⟨hg.1, lt_trans hg.2 h⟩
  have hd := ha.2 hg2 b hb
  nlinarith [hg.2, h]

/-- Witness for claim C7 with radii `3/100 < 1/20` on `toolW5`: the area kept
at the larger radius is kept at the smaller one. -/
theorem exclusion_monotone_witness :
    areaW5a ∈ filterCandidates toolW5.sa_data toolW5.businesses (1/20) ∧
    areaW5a ∈ filterCandidates toolW5.sa_data toolW5.businesses (3/100) := by
  have hm : areaW5a ∈ filterCandidates toolW5.sa_data toolW5.businesses
      (1/20) := by
    simp [filterCandidates, toolW5, areaW5a, areaW5b, areaW1, dist2]
    norm_num
  exact ⟨hm, exclusion_monotone toolW5.sa_data toolW5.businesses (3/100)
    (1/20) (by norm_num) areaW5a hm⟩

theorem minmaxNorm_of_ne (vals : List ℚ) (v : ℚ)
    (h : listMax vals ≠ listMin vals) :
    minmaxNorm vals v = RR.num (qnorm vals v) := by
  rw [minmaxNorm, npDiv, if_neg (sub_ne_zero.mpr h), qnorm]

/-- Claim C6 — when every enabled signal is non-degenerate, the score of the
scoring block of `find_optimal_location` is exactly
`0.4 · density_norm (if the density column is present)
+ 0.4 · demographic_norm (if a target demographic is enabled)
+ 0.2 · distance_norm (if businesses exist)`;
the weights of inapplicable signals are simply omitted (their term is `0`),
with no renormalization of the remaining weights. -/
theorem score_weighted_sum (cands : List AreaRow)
    (hasDensity tgt hasBiz : Bool) (tcol : String) (a : AreaRow)
    (hd : hasDensity = true →
      listMax (cands.map (·.population_density)) ≠
        listMin (cands.map (·.population_density)))
    (ht : tgt = true →
      listMax (cands.map fun x => demoVal x tcol) ≠
        listMin (cands.map fun x => demoVal x tcol))
    (hb : hasBiz = true →
      listMax (cands.map dval) ≠ listMin (cands.map dval)) :
    candidateScore cands hasDensity tgt hasBiz tcol a =
      RR.num
        ((if hasDensity then
            0.4 * qnorm (cands.map (·.population_density))
              a.population_density else 0) +
         (if tgt then
            0.4 * qnorm (cands.map fun x => demoVal x tcol)
              (demoVal a tcol) else 0) +
         (if hasBiz then 0.2 * qnorm (cands.map dval) (dval a) else 0)) := by
  cases hasDensity <;> cases tgt <;> cases hasBiz
  · simp [candidateScore]
  · simp [candidateScore, minmaxNorm_of_ne _ _ (hb rfl),
      RR.mulQ, RR.add]
    ring
  · simp [candidateScore, minmaxNorm_of_ne _ _ (ht rfl),
      RR.mulQ, RR.add]
    ring
  · simp [candidateScore, minmaxNorm_of_ne _ _ (ht rfl),
      minmaxNorm_of_ne _ _ (hb rfl), RR.mulQ, RR.add]
    ring
  · simp [candidateScore, minmaxNorm_of_ne _ _ (hd rfl),
      RR.mulQ, RR.add]
    ring
  · simp [candidateScore, minmaxNorm_of_ne _ _ (hd rfl),
      minmaxNorm_of_ne _ _ (hb rfl), RR.mulQ, RR.add]
    ring
  · simp [candidateScore, minmaxNorm_of_ne _ _ (hd rfl),
      minmaxNorm_of_ne _ _ (ht rfl), RR.mulQ, RR.add]
    ring
  · simp [candidateScore, minmaxNorm_of_ne _ _ (hd rfl),
      minmaxNorm_of_ne _ _ (ht rfl), minmaxNorm_of_ne _ _ (hb rfl),
      RR.mulQ, RR.add]
    ring

/-- Candidate with the smaller value on every signal column. -/
def candW6a : AreaRow :=
  { areaW1 with
    sa1 := "D1"
    population_density := 1
    demo := [("g", 3)]
    distance2 := some 1 }

/-- Candidate with the larger value on every signal column. -/
def candW6b : AreaRow :=
  { areaW1 with
    sa1 := "D2"
    population_density := 2
    demo := [("g", 4)]
    distance2 := some 4 }

/-- Witness for claim C6 with all three signals enabled and
non-degenerate. -/
theorem score_weighted_sum_witness :
    candidateScore [candW6a, candW6b] true true true "g" candW6a =
      RR.num
        ((if true then
            0.4 * qnorm ([candW6a, candW6b].map (·.population_density))
              candW6a.population_density else 0) +
         (if true then
            0.4 * qnorm ([candW6a, candW6b].map fun x => demoVal x "g")
              (demoVal candW6a "g") else 0) +
         (if true then
            0.2 * qnorm ([candW6a, candW6b].map dval) (dval candW6a)
          else 0)) :=
  score_weighted_sum [candW6a, candW6b] true true true "g" candW6a
    (fun _ => by simp [candW6a, candW6b, areaW1, listMax, listMin])
    (fun _ => by simp [candW6a, candW6b, areaW1, listMax, listMin, demoVal])
    (fun _ => by simp [candW6a, candW6b, areaW1, listMax, listMin, dval])

/-- Embedding of the add-business button handler of `src/app.py` (lines
673-679): the only validation is the truthiness check on the name
(`if new_name:`); the coordinates from the two number inputs are passed to
`add_business` unchecked.  Returns the resulting state and whether the add
was performed. -/
def addBusinessHandler (t : Tool) (name : String) (lat lon : ℚ) :
    Tool × Bool :=
  if name ≠ "" then (add_business t name lat lon, true) else (t, false)

/-- Fresh tool for the C3 theorems. -/
def toolW3 : Tool := initTool [areaW1] true []

/-- Counterexample to claim C3 as stated: `add_business` with latitude `200`,
far outside `[-90, 90]`, is *not* rejected — the facility is appended to the
Registry (which was empty before the call). -/
theorem out_of_range_latitude_appends :
    (90 : ℚ) < 200 ∧
    (add_business toolW3 "X" 200 0).businesses.map (fun b => b.name) =
      ["X"] ∧
    toolW3.businesses = [] := by
  refine ⟨by norm_num, ?_, rfl⟩
  rw [add_business, recalc_business_names]
  simp [toolW3, initTool]

/-- Amended claim C3 — the only validation on adding a facility is the UI
handler's empty-name check, which reports failure and leaves the state
unchanged with no facility appended; with any non-empty name the facility is
appended (and catchments recomputed) *regardless of its coordinates* — there
is no coordinate-range validation anywhere on the path. -/
theorem add_business_validation (t : Tool) (n : String) (lat lon : ℚ)
    (hn : n ≠ "") :
    addBusinessHandler t "" lat lon = (t, false) ∧
    (addBusinessHandler t n lat lon).2 = true ∧
    (addBusinessHandler t n lat lon).1.businesses.map (fun b => b.name) =
      t.businesses.map (fun b => b.name) ++ [n] := by
  refine ⟨by rw [addBusinessHandler]; simp, ?_, ?_⟩
  · rw [addBusinessHandler, if_pos hn]
  · rw [addBusinessHandler, if_pos hn]
    show (add_business t n lat lon).businesses.map _ = _
    rw [add_business, recalc_business_names]
    simp

/-- Witness for the amended claim C3 at out-of-range latitude `200`. -/
theorem add_business_validation_witness :
    addBusinessHandler toolW3 "" 200 0 = (toolW3, false) ∧
    (addBusinessHandler toolW3 "X" 200 0).2 = true ∧
    (addBusinessHandler toolW3 "X" 200 0).1.businesses.map
        (fun b => b.name) =
      toolW3.businesses.map (fun b => b.name) ++ ["X"] :=
  add_business_validation toolW3 "X" 200 0 (by simp)

end MRT
